import Mathlib

/-!
# Frequalizer editor: coordinate mapping, hit-testing and drag interaction

A shallow embedding of `Source/FrequalizerEditor.cpp`.

Numbers.  The C++ code computes in `float`/`double`.  Here every finite float is
read as the real number it denotes and rounding is not modelled, with one exception:
the gain round trip carries the rounding error of the stored position as an explicit
parameter.  A value of type `Option ℝ` is a float result: `some r` is the finite value `r`, and `none`
is a value that the C++ code computes through a non-finite intermediate
(a division by zero, or `std::log` of a non-positive number).  Every comparison
with `none` is false, as a comparison with NaN or with an infinite distance is.
-/

noncomputable section

open Classical

namespace Frequalizer

/-! ## Domain mapper -/

/-- The constant `static int clickRadius = 4;`. -/
def clickRadius : ℤ := 4

/-- Floating-point division `a / b`: finite when `b ≠ 0`, non-finite otherwise. -/
def fdiv (a b : ℝ) : Option ℝ :=
  if b = 0 then none else some (a / b)

/-- Modelled from the spec: JUCE's `jmap (value, sourceMin, sourceMax, targetMin, targetMax)`
is library code outside the repository; the spec calls it a linear map of one range onto
another.  JUCE computes
`targetMin + ((targetMax - targetMin) * (value - sourceMin)) / (sourceMax - sourceMin)`. -/
def jmap (value sourceMin sourceMax targetMin targetMax : ℝ) : Option ℝ :=
  (fdiv ((targetMax - targetMin) * (value - sourceMin)) (sourceMax - sourceMin)).map
    (fun q => targetMin + q)

/-- Modelled from the spec: JUCE's `Decibels::gainToDecibels (gain, minusInfinityDb)` is library
code outside the repository; the spec says linear gain is converted to dB with a reference floor.
JUCE computes `gain > 0 ? jmax (minusInfinityDb, log10 (gain) * 20) : minusInfinityDb`. -/
def gainToDecibels (gain minusInfinityDb : ℝ) : ℝ :=
  if 0 < gain then max minusInfinityDb (Real.logb 10 gain * 20) else minusInfinityDb

/-- Modelled from the spec: JUCE's `Decibels::decibelsToGain (decibels, minusInfinityDb)` is
library code outside the repository; the spec says dB is converted to linear gain with the same
floor.  JUCE computes `decibels > minusInfinityDb ? pow (10, decibels * 0.05) : 0`. -/
def decibelsToGain (decibels minusInfinityDb : ℝ) : ℝ :=
  if minusInfinityDb < decibels then (10 : ℝ) ^ (decibels * (1 / 20)) else 0

/-- Source `getPositionForFrequency`: `(std::log (freq / 20.0) / std::log (2.0)) / 10.0`.
`std::log` of a non-positive argument is not finite. -/
def getPositionForFrequency (freq : ℝ) : Option ℝ :=
  if 0 < freq then some ((Real.log (freq / 20) / Real.log 2) / 10) else none

/-- Source `getFrequencyForPosition`: `20.0 * std::pow (2.0, pos * 10.0)`. -/
def getFrequencyForPosition (pos : ℝ) : ℝ :=
  20 * (2 : ℝ) ^ (pos * 10)

/-- Source `getPositionForGain`: `jmap (Decibels::gainToDecibels (gain, -12.0f), -12.0f, 12.0f, bottom, top)`. -/
def getPositionForGain (gain top bottom : ℝ) : Option ℝ :=
  jmap (gainToDecibels gain (-12)) (-12) 12 bottom top

/-- Source `getGainForPosition`: `Decibels::decibelsToGain (jmap (pos, bottom, top, -12.0f, 12.0f), -12.0f)`. -/
def getGainForPosition (pos top bottom : ℝ) : Option ℝ :=
  (jmap pos bottom top (-12) 12).map (fun dB => decibelsToGain dB (-12))

/-- Integer rectangle `Rectangle<int>`, the type of `plotFrame`. -/
structure Rectangle where
  x : ℤ
  y : ℤ
  w : ℤ
  h : ℤ

/-- Bottom edge `getBottom ()`, which is `y + h`. -/
def Rectangle.getBottom (r : Rectangle) : ℤ := r.y + r.h

/-- Containment test `Rectangle<int>::contains (int x, int y)`:
`x >= pos.x && y >= pos.y && x < pos.x + w && y < pos.y + h`. -/
def Rectangle.contains (r : Rectangle) (xc yc : ℤ) : Prop :=
  r.x ≤ xc ∧ r.y ≤ yc ∧ xc < r.x + r.w ∧ yc < r.y + r.h

/-- Conversion of a `float` argument to `int` (truncation towards zero), as happens when
`e.position.getX ()` is passed to `Rectangle<int>::contains`. -/
def truncToInt (v : ℝ) : ℤ :=
  if 0 ≤ v then ⌊v⌋ else ⌈v⌉

/-- The fields of a processor band that the mouse handlers read. -/
structure Band where
  frequency : ℝ
  gain : ℝ
  type : ℤ

/-- Modelled from the spec: the processor (`FrequalizerProcessor.h`) is not among the sources.
It owns the bands (`getBand (i)`, null when out of range), the parameter store
(`getPluginState ().getParameter (name)`, null when absent) and the number of filter types
`LastFilterID`.  `gainParam i` tells whether the gain parameter of band `i` exists and
`activeParam i` is the value of the active parameter of band `i`, if it exists. -/
structure Processor where
  bands : List Band
  gainParam : ℕ → Bool
  activeParam : ℕ → Option ℝ
  lastFilterID : ℕ

/-- Band lookup `processor.getBand (i)`. -/
def Processor.getBand (p : Processor) (i : ℕ) : Option Band := p.bands[i]?

/-- Effect of `param->setValueNotifyingHost (v)` on the active parameter of band `i`. -/
def Processor.setActive (p : Processor) (i : ℕ) (v : ℝ) : Processor :=
  { p with activeParam := Function.update p.activeParam i (some v) }

/-- Mouse cursors set by `setMouseCursor`. -/
inductive Cursor where
  | NormalCursor
  | LeftRightResizeCursor
  | UpDownLeftRightResizeCursor
  deriving DecidableEq

/-- The editor fields that the mouse handlers read or write: the number of band editors
(`bandEditors.size ()`), the plot frame, the interaction session and the cursor. -/
structure Editor where
  numBandEditors : ℕ
  plotFrame : Rectangle
  draggingBand : ℤ
  draggingGain : Bool
  cursor : Cursor

/-- The fields of a `MouseEvent` that the handlers read. -/
structure MouseEvent where
  x : ℝ
  y : ℝ
  isPopupMenu : Bool

/-- A parameter write request issued by a handler, with the band it addresses. -/
inductive Write where
  | frequency (band : ℤ) (value : Option ℝ)
  | gain (band : ℤ) (value : Option ℝ)
  | type (band : ℤ) (value : ℤ)
  | active (band : ℤ) (value : ℝ)

/-- Band addressed by a write. -/
def Write.band : Write → ℤ
  | .frequency b _ => b
  | .gain b _ => b
  | .type b _ => b
  | .active b _ => b

/-- Whether a write addresses a frequency or a gain parameter. -/
def Write.isFrequencyOrGain : Write → Bool
  | .frequency _ _ => true
  | .gain _ _ => true
  | _ => false

/-! ## Hit-testing -/

/-- The test `std::abs (a - c) < clickRadius`; false when `a` is not finite. -/
def near (a : Option ℝ) (c : ℝ) : Prop :=
  match a with
  | some v => |v - c| < (clickRadius : ℝ)
  | none => False

/-- Frequency anchor `plotFrame.getX () + getPositionForFrequency (band->frequency) * plotFrame.getWidth ()`. -/
def anchorX (frame : Rectangle) (band : Band) : Option ℝ :=
  (getPositionForFrequency band.frequency).map (fun pos => (frame.x : ℝ) + pos * (frame.w : ℝ))

/-- Gain anchor `getPositionForGain (band->gain, plotFrame.getY (), plotFrame.getBottom ())`. -/
def anchorY (frame : Rectangle) (band : Band) : Option ℝ :=
  getPositionForGain band.gain (frame.y : ℝ) (frame.getBottom : ℝ)

/-- The guard `plotFrame.contains (e.position.getX (), e.position.getY ())`. -/
def inFrame (ed : Editor) (e : MouseEvent) : Prop :=
  ed.plotFrame.contains (truncToInt e.x) (truncToInt e.y)

/-- The loop condition on band `i` without the range check. -/
def hitAt (ed : Editor) (p : Processor) (e : MouseEvent) (i : ℕ) : Prop :=
  ∃ band, p.getBand i = some band ∧ near (anchorX ed.plotFrame band) e.x

/-- Band `i` is visited by the handlers' loop and its frequency anchor is within tolerance of
the pointer: `i < bandEditors.size ()`, `getBand (i)` is non-null and
`std::abs (anchor - e.position.getX ()) < clickRadius`. -/
def isHit (ed : Editor) (p : Processor) (e : MouseEvent) (i : ℕ) : Prop :=
  i < ed.numBandEditors ∧ ∃ band, p.getBand i = some band ∧ near (anchorX ed.plotFrame band) e.x

/-! ## Mouse handlers -/

/-- Body of the hit branch of `mouseMove` for band `i` (lines 196-210). -/
def mouseMoveHit (ed : Editor) (p : Processor) (e : MouseEvent) (i : ℕ) (band : Band) : Editor :=
  let ed1 : Editor :=
    if near (anchorY ed.plotFrame band) e.y then
      { ed with draggingGain := p.gainParam i, cursor := Cursor.UpDownLeftRightResizeCursor }
    else
      { ed with cursor := Cursor.LeftRightResizeCursor }
  if (i : ℤ) ≠ ed1.draggingBand then { ed1 with draggingBand := (i : ℤ) } else ed1

/-- The loop `for (int i=0; i < bandEditors.size (); ++i)` of `mouseMove` over the remaining
indices; `some` is the state at the `return` of the first hit, `none` means the loop ended. -/
def mouseMoveLoop (ed : Editor) (p : Processor) (e : MouseEvent) : List ℕ → Option Editor
  | [] => none
  | i :: rest =>
    match p.getBand i with
    | some band =>
      if near (anchorX ed.plotFrame band) e.x then some (mouseMoveHit ed p e i band)
      else mouseMoveLoop ed p e rest
    | none => mouseMoveLoop ed p e rest

/-- State after the tail of `mouseMove` (lines 215-217). -/
def mouseMoveMiss (ed : Editor) : Editor :=
  { ed with draggingBand := -1, draggingGain := false, cursor := Cursor.NormalCursor }

/-- Handler `mouseMove`. -/
def mouseMove (ed : Editor) (p : Processor) (e : MouseEvent) : Editor :=
  if inFrame ed e then
    match mouseMoveLoop ed p e (List.range ed.numBandEditors) with
    | some ed1 => ed1
    | none => mouseMoveMiss ed
  else mouseMoveMiss ed

/-- Test `isPositiveAndBelow (value, upper)`. -/
def isPositiveAndBelow (value upper : ℤ) : Prop := 0 ≤ value ∧ value < upper

/-- Handler `mouseDrag`: the writes it issues.  It changes no editor field. -/
def mouseDrag (ed : Editor) (e : MouseEvent) : List Write :=
  if isPositiveAndBelow ed.draggingBand (ed.numBandEditors : ℤ) then
    let pos := fdiv (e.x - (ed.plotFrame.x : ℝ)) (ed.plotFrame.w : ℝ)
    Write.frequency ed.draggingBand (pos.map getFrequencyForPosition) ::
      (if ed.draggingGain then
        [Write.gain ed.draggingBand
          (getGainForPosition e.y (ed.plotFrame.y : ℝ) (ed.plotFrame.getBottom : ℝ))]
      else [])
  else []

/-- The value written by a double-click: `param->getValue () < 0.5f ? 1.0f : 0.0f`. -/
def toggleValue (v : ℝ) : ℝ := if v < 1 / 2 then 1 else 0

/-- The loop of `mouseDoubleClick` over the remaining indices, threading the parameter store
and the log of writes.  The loop has no `break`: every hit band is processed. -/
def mouseDoubleClickLoop (ed : Editor) (e : MouseEvent) :
    List ℕ → Processor → List Write → Processor × List Write
  | [], p, ws => (p, ws)
  | i :: rest, p, ws =>
    match p.getBand i with
    | some band =>
      if near (anchorX ed.plotFrame band) e.x then
        match p.activeParam i with
        | some v =>
          mouseDoubleClickLoop ed e rest (p.setActive i (toggleValue v))
            (ws ++ [Write.active (i : ℤ) (toggleValue v)])
        | none => mouseDoubleClickLoop ed e rest p ws
      else mouseDoubleClickLoop ed e rest p ws
    | none => mouseDoubleClickLoop ed e rest p ws

/-- Handler `mouseDoubleClick`: the parameter store afterwards and the writes issued. -/
def mouseDoubleClick (ed : Editor) (p : Processor) (e : MouseEvent) : Processor × List Write :=
  if inFrame ed e then mouseDoubleClickLoop ed e (List.range ed.numBandEditors) p []
  else (p, [])

/-- An item of the context menu: its id `t + 1` and whether it is ticked (`band->type == t`). -/
structure MenuItem where
  id : ℤ
  ticked : Bool

/-- A context menu shown by `showMenuAsync`, with the band index its callback captures. -/
structure MenuSession where
  band : ℕ
  items : List MenuItem

/-- The menu items built for a band (lines 171-175). -/
def menuItems (p : Processor) (band : Band) : List MenuItem :=
  (List.range p.lastFilterID).map
    (fun t => { id := (t : ℤ) + 1, ticked := decide (band.type = (t : ℤ)) })

/-- The loop of `mouseDown` over the remaining indices: the menus it shows. -/
def mouseDownLoop (ed : Editor) (p : Processor) (e : MouseEvent) : List ℕ → List MenuSession
  | [] => []
  | i :: rest =>
    match p.getBand i with
    | some band =>
      if near (anchorX ed.plotFrame band) e.x then
        { band := i, items := menuItems p band } :: mouseDownLoop ed p e rest
      else mouseDownLoop ed p e rest
    | none => mouseDownLoop ed p e rest

/-- Handler `mouseDown`: the context menus it opens.  It changes no editor field. -/
def mouseDown (ed : Editor) (p : Processor) (e : MouseEvent) : List MenuSession :=
  if e.isPopupMenu = true ∧ inFrame ed e then mouseDownLoop ed p e (List.range ed.numBandEditors)
  else []

/-- Outcome of an access that the C++ code performs without a bounds check. -/
inductive Fault where
  | outOfBounds
  deriving DecidableEq

/-- The menu callback `[this, i] (int selected)` (lines 180-184):
`if (selected > 0) bandEditors.getUnchecked (i)->setType (selected - 1);`.
The access `getUnchecked (i)` is outside the array when `i` is not below `bandEditors.size ()`. -/
def menuCallback (ed : Editor) (i : ℕ) (selected : ℤ) : Except Fault (List Write) :=
  if 0 < selected then
    if i < ed.numBandEditors then Except.ok [Write.type (i : ℤ) (selected - 1)]
    else Except.error Fault.outOfBounds
  else Except.ok []

/-! ## Event traces -/

/-- Pointer events delivered to the editor. -/
inductive PointerEvent where
  | move (e : MouseEvent)
  | drag (e : MouseEvent)
  | down (e : MouseEvent)
  | doubleClick (e : MouseEvent)

/-- Editor and processor together. -/
structure World where
  ed : Editor
  proc : Processor

/-- One event: the world afterwards and the writes issued by the handler. -/
def handle (w : World) : PointerEvent → World × List Write
  | .move e => ({ w with ed := mouseMove w.ed w.proc e }, [])
  | .drag e => (w, mouseDrag w.ed e)
  | .down _ => (w, [])
  | .doubleClick e =>
    ({ w with proc := (mouseDoubleClick w.ed w.proc e).1 }, (mouseDoubleClick w.ed w.proc e).2)

/-- All writes issued along a sequence of events. -/
def run (w : World) : List PointerEvent → List Write
  | [] => []
  | ev :: rest => (handle w ev).2 ++ run (handle w ev).1 rest

/-! ## Example data -/

/-- A frame at x = 96, y = 0 of width 40 and height 100. -/
def exFrame : Rectangle := { x := 96, y := 0, w := 40, h := 100 }

/-- Two bands at 40 Hz and 80 Hz with unit gain: their frequency anchors in `exFrame` are at
pixel-x 100 and 104, their gain anchors at pixel-y 50. -/
def exBands : List Band :=
  [{ frequency := 20 * 2 ^ 1, gain := 1, type := 0 }, { frequency := 20 * 2 ^ 2, gain := 1, type := 0 }]

/-- A processor holding `exBands`, every parameter present, active values 0.3 and 0.7. -/
def exProcessor : Processor :=
  { bands := exBands
    gainParam := fun _ => true
    activeParam := fun i => if i = 0 then some (3 / 10) else some (7 / 10)
    lastFilterID := 11 }

/-- An editor over `exFrame` with two band editors, in the state given. -/
def exEditor (db : ℤ) (dg : Bool) : Editor :=
  { numBandEditors := 2, plotFrame := exFrame, draggingBand := db, draggingGain := dg,
    cursor := Cursor.NormalCursor }

/-- A pointer event at `(x, y)` without the menu modifier. -/
def exEvent (x y : ℝ) : MouseEvent := { x := x, y := y, isPopupMenu := false }

/-- An editor whose plot frame has zero width, with band 1 left as the dragged band. -/
def exZeroWidth : Editor :=
  { numBandEditors := 2, plotFrame := { x := 96, y := 0, w := 0, h := 100 }, draggingBand := 1,
    draggingGain := false, cursor := Cursor.LeftRightResizeCursor }

/-- An editor whose plot frame has zero height, with band 1 left as the dragged band and gain
engaged. -/
def exZeroHeight : Editor :=
  { numBandEditors := 2, plotFrame := { x := 96, y := 0, w := 40, h := 0 }, draggingBand := 1,
    draggingGain := true, cursor := Cursor.UpDownLeftRightResizeCursor }

/-! ## Domain mapper: lemmas -/

theorem log_two_pos : 0 < Real.log 2 := Real.log_pos (by norm_num)

theorem getPositionForFrequency_of_pos {f : ℝ} (hf : 0 < f) :
    getPositionForFrequency f = some ((Real.log (f / 20) / Real.log 2) / 10) := by
  simp [getPositionForFrequency, hf]

theorem getFrequencyForPosition_log {f : ℝ} (hf : 0 < f) :
    getFrequencyForPosition ((Real.log (f / 20) / Real.log 2) / 10) = f := by
  have h20 : 0 < f / 20 := by positivity
  have hl : Real.log 2 ≠ 0 := ne_of_gt log_two_pos
  unfold getFrequencyForPosition
  have e : (Real.log (f / 20) / Real.log 2) / 10 * 10 = Real.log (f / 20) / Real.log 2 := by
    ring
  rw [e, Real.rpow_def_of_pos (by norm_num : (0 : ℝ) < 2)]
  have e2 : Real.log 2 * (Real.log (f / 20) / Real.log 2) = Real.log (f / 20) := by
    field_simp
  rw [e2, Real.exp_log h20]
  field_simp

/-- Positions of the octave frequencies `20 * 2 ^ k`. -/
theorem getPositionForFrequency_octave (k : ℕ) :
    getPositionForFrequency (20 * 2 ^ k) = some ((k : ℝ) / 10) := by
  have hpos : (0 : ℝ) < 20 * 2 ^ k := by positivity
  rw [getPositionForFrequency_of_pos hpos]
  have hl : Real.log 2 ≠ 0 := ne_of_gt log_two_pos
  have e : (20 * 2 ^ k : ℝ) / 20 = 2 ^ k := by field_simp
  rw [e, Real.log_pow]
  congr 1
  field_simp

theorem jmap_of_ne {v a b c d : ℝ} (h : b - a ≠ 0) :
    jmap v a b c d = some (c + ((d - c) * (v - a)) / (b - a)) := by
  simp [jmap, fdiv, h]

theorem getPositionForGain_eq (g top bottom : ℝ) :
    getPositionForGain g top bottom
      = some (bottom + ((top - bottom) * (gainToDecibels g (-12) - (-12))) / (12 - (-12))) := by
  unfold getPositionForGain
  exact jmap_of_ne (by norm_num)

theorem decibelsToGain_gainToDecibels_above {g : ℝ} (hg : 0 < g)
    (h : -12 < Real.logb 10 g * 20) :
    decibelsToGain (gainToDecibels g (-12)) (-12) = g := by
  have hm : max (-12 : ℝ) (Real.logb 10 g * 20) = Real.logb 10 g * 20 := max_eq_right (le_of_lt h)
  unfold gainToDecibels decibelsToGain
  rw [if_pos hg, hm, if_pos h]
  have e : Real.logb 10 g * 20 * (1 / 20) = Real.logb 10 g := by ring
  rw [e]
  exact Real.rpow_logb (by norm_num) (by norm_num) hg

theorem isHit_iff (ed : Editor) (p : Processor) (e : MouseEvent) (i : ℕ) :
    isHit ed p e i ↔ i < ed.numBandEditors ∧ hitAt ed p e i := Iff.rfl

theorem mouseMoveHit_draggingBand (ed : Editor) (p : Processor) (e : MouseEvent) (i : ℕ)
    (band : Band) : (mouseMoveHit ed p e i band).draggingBand = (i : ℤ) := by
  unfold mouseMoveHit
  by_cases hy : near (anchorY ed.plotFrame band) e.y
  · by_cases hi : (i : ℤ) = ed.draggingBand <;> simp [hy, hi]
  · by_cases hi : (i : ℤ) = ed.draggingBand <;> simp [hy, hi]

theorem mouseMoveHit_draggingGain (ed : Editor) (p : Processor) (e : MouseEvent) (i : ℕ)
    (band : Band) :
    (mouseMoveHit ed p e i band).draggingGain
      = if near (anchorY ed.plotFrame band) e.y then p.gainParam i else ed.draggingGain := by
  unfold mouseMoveHit
  by_cases hy : near (anchorY ed.plotFrame band) e.y
  · by_cases hi : (i : ℤ) = ed.draggingBand <;> simp [hy, hi]
  · by_cases hi : (i : ℤ) = ed.draggingBand <;> simp [hy, hi]

theorem mouseMoveHit_cursor (ed : Editor) (p : Processor) (e : MouseEvent) (i : ℕ)
    (band : Band) :
    (mouseMoveHit ed p e i band).cursor
      = if near (anchorY ed.plotFrame band) e.y then Cursor.UpDownLeftRightResizeCursor
        else Cursor.LeftRightResizeCursor := by
  unfold mouseMoveHit
  by_cases hy : near (anchorY ed.plotFrame band) e.y
  · by_cases hi : (i : ℤ) = ed.draggingBand <;> simp [hy, hi]
  · by_cases hi : (i : ℤ) = ed.draggingBand <;> simp [hy, hi]

theorem mouseMoveHit_frame (ed : Editor) (p : Processor) (e : MouseEvent) (i : ℕ)
    (band : Band) :
    (mouseMoveHit ed p e i band).plotFrame = ed.plotFrame ∧
      (mouseMoveHit ed p e i band).numBandEditors = ed.numBandEditors := by
  unfold mouseMoveHit
  by_cases hy : near (anchorY ed.plotFrame band) e.y
  · by_cases hi : (i : ℤ) = ed.draggingBand <;> simp [hy, hi]
  · by_cases hi : (i : ℤ) = ed.draggingBand <;> simp [hy, hi]

/-- The loop of `mouseMove` over an increasing list of indices either finds no hit in the list,
or returns at the least index of the list that is a hit. -/
theorem mouseMoveLoop_spec (ed : Editor) (p : Processor) (e : MouseEvent) :
    ∀ l : List ℕ, l.Pairwise (· < ·) →
      ((∀ i ∈ l, ¬ hitAt ed p e i) ∧ mouseMoveLoop ed p e l = none) ∨
      ∃ i band, i ∈ l ∧ p.getBand i = some band ∧ near (anchorX ed.plotFrame band) e.x ∧
        (∀ j ∈ l, j < i → ¬ hitAt ed p e j) ∧
        mouseMoveLoop ed p e l = some (mouseMoveHit ed p e i band) := by
  intro l
  induction l with
  | nil => intro _; left; exact ⟨by simp, rfl⟩
  | cons a rest ih =>
    intro hl
    rw [List.pairwise_cons] at hl
    obtain ⟨ha, hrest⟩ := hl
    cases hb : p.getBand a with
    | none =>
      have hna : ¬ hitAt ed p e a := by
        rintro ⟨band, hband, _⟩
        rw [hb] at hband
        cases hband
      have hloop : mouseMoveLoop ed p e (a :: rest) = mouseMoveLoop ed p e rest := by
        simp [mouseMoveLoop, hb]
      rcases ih hrest with ⟨hno, hnone⟩ | ⟨i, band, hi, hgb, hnear, hmin, hsome⟩
      · left
        refine ⟨?_, by rw [hloop, hnone]⟩
        intro i hi
        rcases List.mem_cons.mp hi with rfl | hi
        · exact hna
        · exact hno i hi
      · right
        refine ⟨i, band, List.mem_cons_of_mem _ hi, hgb, hnear, ?_, by rw [hloop, hsome]⟩
        intro j hj hji
        rcases List.mem_cons.mp hj with rfl | hj
        · exact hna
        · exact hmin j hj hji
    | some band0 =>
      by_cases hnear0 : near (anchorX ed.plotFrame band0) e.x
      · right
        refine ⟨a, band0, List.mem_cons_self _ _, hb, hnear0, ?_, by simp [mouseMoveLoop, hb, hnear0]⟩
        intro j hj hja
        rcases List.mem_cons.mp hj with rfl | hj
        · exact absurd hja (lt_irrefl _)
        · exact absurd hja (not_lt.mpr (le_of_lt (ha j hj)))
      · have hna : ¬ hitAt ed p e a := by
          rintro ⟨band, hband, hn⟩
          rw [hb] at hband
          cases hband
          exact hnear0 hn
        have hloop : mouseMoveLoop ed p e (a :: rest) = mouseMoveLoop ed p e rest := by
          simp [mouseMoveLoop, hb, hnear0]
        rcases ih hrest with ⟨hno, hnone⟩ | ⟨i, band, hi, hgb, hnear, hmin, hsome⟩
        · left
          refine ⟨?_, by rw [hloop, hnone]⟩
          intro i hi
          rcases List.mem_cons.mp hi with rfl | hi
          · exact hna
          · exact hno i hi
        · right
          refine ⟨i, band, List.mem_cons_of_mem _ hi, hgb, hnear, ?_, by rw [hloop, hsome]⟩
          intro j hj hji
          rcases List.mem_cons.mp hj with rfl | hj
          · exact hna
          · exact hmin j hj hji

/-- Inside the frame with at least one hit, `mouseMove` returns the hit state of the least hit. -/
theorem mouseMove_of_hit (ed : Editor) (p : Processor) (e : MouseEvent)
    (hin : inFrame ed e) (hex : ∃ i, isHit ed p e i) :
    ∃ i band, isHit ed p e i ∧ p.getBand i = some band ∧ (∀ j, isHit ed p e j → i ≤ j) ∧
      mouseMove ed p e = mouseMoveHit ed p e i band := by
  rcases mouseMoveLoop_spec ed p e (List.range ed.numBandEditors) (List.pairwise_lt_range _) with
    ⟨hno, _⟩ | ⟨i, band, hi, hgb, hnear, hmin, hsome⟩
  · obtain ⟨i, hlt, hhit⟩ := hex
    exact absurd hhit (hno i (List.mem_range.mpr hlt))
  · refine ⟨i, band, ⟨List.mem_range.mp hi, band, hgb, hnear⟩, hgb, ?_, ?_⟩
    · intro j hj
      by_contra hlt
      exact hmin j (List.mem_range.mpr hj.1) (not_le.mp hlt) hj.2
    · unfold mouseMove
      rw [if_pos hin, hsome]

/-- Outside the frame, or without any hit, `mouseMove` ends in the idle state. -/
theorem mouseMove_of_miss (ed : Editor) (p : Processor) (e : MouseEvent)
    (hmiss : ¬ (inFrame ed e ∧ ∃ i, isHit ed p e i)) :
    mouseMove ed p e = mouseMoveMiss ed := by
  unfold mouseMove
  by_cases hin : inFrame ed e
  · rw [if_pos hin]
    rcases mouseMoveLoop_spec ed p e (List.range ed.numBandEditors) (List.pairwise_lt_range _) with
      ⟨_, hnone⟩ | ⟨i, band, hi, hgb, hnear, _, _⟩
    · rw [hnone]
    · exact absurd ⟨hin, i, List.mem_range.mp hi, band, hgb, hnear⟩ hmiss
  · rw [if_neg hin]

/-! ## Drag and double-click: lemmas -/

theorem isHit_congr (ed ed1 : Editor) (p p1 : Processor) (e : MouseEvent) (i : ℕ)
    (hf : ed1.plotFrame = ed.plotFrame) (hn : ed1.numBandEditors = ed.numBandEditors)
    (hb : p1.bands = p.bands) : isHit ed1 p1 e i ↔ isHit ed p e i := by
  unfold isHit Processor.getBand
  rw [hf, hn, hb]

theorem hitAt_congr (ed : Editor) (p p1 : Processor) (e : MouseEvent) (i : ℕ)
    (hb : p1.bands = p.bands) : hitAt ed p1 e i ↔ hitAt ed p e i := by
  unfold hitAt Processor.getBand
  rw [hb]

theorem inFrame_congr (ed ed1 : Editor) (e : MouseEvent) (hf : ed1.plotFrame = ed.plotFrame) :
    inFrame ed1 e ↔ inFrame ed e := by
  unfold inFrame
  rw [hf]

theorem mouseMove_frame (ed : Editor) (p : Processor) (e : MouseEvent) :
    (mouseMove ed p e).plotFrame = ed.plotFrame ∧
      (mouseMove ed p e).numBandEditors = ed.numBandEditors := by
  by_cases h : inFrame ed e ∧ ∃ i, isHit ed p e i
  · obtain ⟨i, band, _, _, _, hmove⟩ := mouseMove_of_hit ed p e h.1 h.2
    rw [hmove]
    exact mouseMoveHit_frame _ _ _ _ _
  · rw [mouseMove_of_miss ed p e h]
    exact ⟨rfl, rfl⟩

theorem mouseDrag_idle (ed : Editor) (e : MouseEvent) (h : ed.draggingBand = -1) :
    mouseDrag ed e = [] := by
  unfold mouseDrag
  rw [if_neg]
  rintro ⟨h0, _⟩
  rw [h] at h0
  exact absurd h0 (by norm_num)

/-- One step of the double-click loop. -/
theorem mouseDoubleClickLoop_cons (ed : Editor) (e : MouseEvent) (a : ℕ) (rest : List ℕ)
    (p : Processor) (ws : List Write) :
    (hitAt ed p e a ∧ ∃ v, p.activeParam a = some v ∧
        mouseDoubleClickLoop ed e (a :: rest) p ws
          = mouseDoubleClickLoop ed e rest (p.setActive a (toggleValue v))
              (ws ++ [Write.active (a : ℤ) (toggleValue v)])) ∨
      (¬ (hitAt ed p e a ∧ ∃ v, p.activeParam a = some v) ∧
        mouseDoubleClickLoop ed e (a :: rest) p ws = mouseDoubleClickLoop ed e rest p ws) := by
  cases hb : p.getBand a with
  | none =>
    right
    refine ⟨?_, by simp [mouseDoubleClickLoop, hb]⟩
    rintro ⟨⟨band, hband, _⟩, _⟩
    rw [hb] at hband
    cases hband
  | some band0 =>
    by_cases hnear0 : near (anchorX ed.plotFrame band0) e.x
    · cases hv : p.activeParam a with
      | none =>
        right
        refine ⟨?_, by simp [mouseDoubleClickLoop, hb, hnear0, hv]⟩
        rintro ⟨_, v, hv1⟩
        cases hv1
      | some v =>
        left
        exact ⟨⟨band0, hb, hnear0⟩, v, rfl, by simp [mouseDoubleClickLoop, hb, hnear0, hv]⟩
    · right
      refine ⟨?_, by simp [mouseDoubleClickLoop, hb, hnear0]⟩
      rintro ⟨⟨band, hband, hn⟩, _⟩
      rw [hb] at hband
      cases hband
      exact hnear0 hn

theorem setActive_bands (p : Processor) (i : ℕ) (v : ℝ) : (p.setActive i v).bands = p.bands :=
  rfl

theorem setActive_activeParam_ne (p : Processor) (i j : ℕ) (v : ℝ) (h : j ≠ i) :
    (p.setActive i v).activeParam j = p.activeParam j := by
  simp [Processor.setActive, Function.update, h]

theorem setActive_activeParam_self (p : Processor) (i : ℕ) (v : ℝ) :
    (p.setActive i v).activeParam i = some v := by
  simp [Processor.setActive]

/-- The double-click loop changes no band. -/
theorem mouseDoubleClickLoop_bands (ed : Editor) (e : MouseEvent) :
    ∀ (l : List ℕ) (p : Processor) (ws : List Write),
      (mouseDoubleClickLoop ed e l p ws).1.bands = p.bands := by
  intro l
  induction l with
  | nil => intro p ws; rfl
  | cons a rest ih =>
    intro p ws
    rcases mouseDoubleClickLoop_cons ed e a rest p ws with ⟨_, v, _, hstep⟩ | ⟨_, hstep⟩
    · rw [hstep, ih, setActive_bands]
    · rw [hstep, ih]

/-- The double-click loop leaves the active parameter of every band outside the list alone. -/
theorem mouseDoubleClickLoop_activeParam_not_mem (ed : Editor) (e : MouseEvent) :
    ∀ (l : List ℕ) (p : Processor) (ws : List Write) (i : ℕ), i ∉ l →
      (mouseDoubleClickLoop ed e l p ws).1.activeParam i = p.activeParam i := by
  intro l
  induction l with
  | nil => intro p ws i _; rfl
  | cons a rest ih =>
    intro p ws i hi
    have hia : i ≠ a := fun h => hi (h ▸ List.mem_cons_self _ _)
    have hir : i ∉ rest := fun h => hi (List.mem_cons_of_mem _ h)
    rcases mouseDoubleClickLoop_cons ed e a rest p ws with ⟨_, v, _, hstep⟩ | ⟨_, hstep⟩
    · rw [hstep, ih _ _ i hir, setActive_activeParam_ne p a i _ hia]
    · rw [hstep, ih _ _ i hir]

/-- The double-click loop only appends to the log of writes. -/
theorem mouseDoubleClickLoop_log_mono (ed : Editor) (e : MouseEvent) :
    ∀ (l : List ℕ) (p : Processor) (ws : List Write) (w : Write), w ∈ ws →
      w ∈ (mouseDoubleClickLoop ed e l p ws).2 := by
  intro l
  induction l with
  | nil => intro p ws w hw; exact hw
  | cons a rest ih =>
    intro p ws w hw
    rcases mouseDoubleClickLoop_cons ed e a rest p ws with ⟨_, v, _, hstep⟩ | ⟨_, hstep⟩
    · rw [hstep]
      exact ih _ _ w (List.mem_append_left _ hw)
    · rw [hstep]
      exact ih _ _ w hw

/-- Every write the double-click loop adds is the toggle of a hit band of the list, computed
from the value its active parameter had before the loop. -/
theorem mouseDoubleClickLoop_log (ed : Editor) (e : MouseEvent) :
    ∀ (l : List ℕ), l.Nodup → ∀ (p : Processor) (ws : List Write) (w : Write),
      w ∈ (mouseDoubleClickLoop ed e l p ws).2 →
      w ∈ ws ∨ ∃ j ∈ l, ∃ v, hitAt ed p e j ∧ p.activeParam j = some v ∧
        w = Write.active (j : ℤ) (toggleValue v) := by
  intro l
  induction l with
  | nil => intro _ p ws w hw; exact Or.inl hw
  | cons a rest ih =>
    intro hl p ws w hw
    rw [List.nodup_cons] at hl
    obtain ⟨ha, hrest⟩ := hl
    rcases mouseDoubleClickLoop_cons ed e a rest p ws with ⟨hhit, v, hv, hstep⟩ | ⟨_, hstep⟩
    · rw [hstep] at hw
      rcases ih hrest _ _ w hw with hmem | ⟨j, hj, u, hjhit, hju, hw⟩
      · rcases List.mem_append.mp hmem with hmem | hmem
        · exact Or.inl hmem
        · right
          rw [List.mem_singleton] at hmem
          exact ⟨a, List.mem_cons_self _ _, v, hhit, hv, hmem⟩
      · right
        have hja : j ≠ a := fun h => ha (h ▸ hj)
        rw [setActive_activeParam_ne p a j _ hja] at hju
        exact ⟨j, List.mem_cons_of_mem _ hj, u,
          (hitAt_congr ed p _ e j (setActive_bands p a _)).mp hjhit, hju, hw⟩
    · rw [hstep] at hw
      rcases ih hrest _ _ w hw with hmem | ⟨j, hj, u, hjhit, hju, hw⟩
      · exact Or.inl hmem
      · exact Or.inr ⟨j, List.mem_cons_of_mem _ hj, u, hjhit, hju, hw⟩

/-- Every hit band of the list whose active parameter exists is written with the toggle of its
value before the loop, and holds that value after the loop. -/
theorem mouseDoubleClickLoop_hit (ed : Editor) (e : MouseEvent) :
    ∀ (l : List ℕ), l.Nodup → ∀ (p : Processor) (ws : List Write) (i : ℕ) (v : ℝ),
      i ∈ l → hitAt ed p e i → p.activeParam i = some v →
      Write.active (i : ℤ) (toggleValue v) ∈ (mouseDoubleClickLoop ed e l p ws).2 ∧
        (mouseDoubleClickLoop ed e l p ws).1.activeParam i = some (toggleValue v) := by
  intro l
  induction l with
  | nil => intro _ p ws i v hi; cases hi
  | cons a rest ih =>
    intro hl p ws i v hi hhit hv
    rw [List.nodup_cons] at hl
    obtain ⟨ha, hrest⟩ := hl
    rcases List.mem_cons.mp hi with hia | hir
    · subst hia
      rcases mouseDoubleClickLoop_cons ed e i rest p ws with ⟨_, u, hu, hstep⟩ | ⟨hno, _⟩
      · rw [hv] at hu
        cases hu
        rw [hstep]
        refine ⟨mouseDoubleClickLoop_log_mono ed e rest _ _ _
          (List.mem_append_right _ (List.mem_singleton_self _)), ?_⟩
        rw [mouseDoubleClickLoop_activeParam_not_mem ed e rest _ _ i ha,
          setActive_activeParam_self]
      · exact absurd ⟨hhit, v, hv⟩ hno
    · have hia : i ≠ a := fun h => ha (h ▸ hir)
      rcases mouseDoubleClickLoop_cons ed e a rest p ws with ⟨_, u, _, hstep⟩ | ⟨_, hstep⟩
      · rw [hstep]
        exact ih hrest _ _ i v hir
          ((hitAt_congr ed p _ e i (setActive_bands p a _)).mpr hhit)
          (by rw [setActive_activeParam_ne p a i _ hia]; exact hv)
      · rw [hstep]
        exact ih hrest _ _ i v hir hhit hv

theorem toggleValue_cases (v : ℝ) :
    (v < 1 / 2 ∧ toggleValue v = 1) ∨ (¬ v < 1 / 2 ∧ toggleValue v = 0) := by
  unfold toggleValue
  by_cases h : v < 1 / 2
  · exact Or.inl ⟨h, if_pos h⟩
  · exact Or.inr ⟨h, if_neg h⟩

/-- The writes of `mouseDoubleClick` address active parameters only. -/
theorem mouseDoubleClick_writes (ed : Editor) (p : Processor) (e : MouseEvent) (w : Write)
    (hw : w ∈ (mouseDoubleClick ed p e).2) :
    inFrame ed e ∧ ∃ j v, isHit ed p e j ∧ p.activeParam j = some v ∧
      w = Write.active (j : ℤ) (toggleValue v) := by
  unfold mouseDoubleClick at hw
  by_cases hin : inFrame ed e
  · rw [if_pos hin] at hw
    rcases mouseDoubleClickLoop_log ed e _ (List.nodup_range _) p [] w hw with
      hmem | ⟨j, hj, v, hhit, hv, hw⟩
    · cases hmem
    · exact ⟨hin, j, v, ⟨List.mem_range.mp hj, hhit⟩, hv, hw⟩
  · rw [if_neg hin] at hw
    cases hw

theorem mouseDoubleClick_bands (ed : Editor) (p : Processor) (e : MouseEvent) :
    (mouseDoubleClick ed p e).1.bands = p.bands := by
  unfold mouseDoubleClick
  by_cases hin : inFrame ed e
  · rw [if_pos hin]
    exact mouseDoubleClickLoop_bands ed e _ p []
  · rw [if_neg hin]

/-- From an idle session, no event sequence without a hitting `mouseMove` issues a frequency
or gain write. -/
theorem run_idle (ed0 : Editor) (p0 : Processor) :
    ∀ (evs : List PointerEvent) (w : World), w.ed.draggingBand = -1 →
      w.ed.plotFrame = ed0.plotFrame → w.ed.numBandEditors = ed0.numBandEditors →
      w.proc.bands = p0.bands →
      (∀ e1, PointerEvent.move e1 ∈ evs → ¬ (inFrame ed0 e1 ∧ ∃ i, isHit ed0 p0 e1 i)) →
      ∀ wr ∈ run w evs, wr.isFrequencyOrGain = false := by
  intro evs
  induction evs with
  | nil => intro w _ _ _ _ _ wr hwr; cases hwr
  | cons ev rest ih =>
    intro w hidle hf hn hb hmoves wr hwr
    have hrest : ∀ e1, PointerEvent.move e1 ∈ rest →
        ¬ (inFrame ed0 e1 ∧ ∃ i, isHit ed0 p0 e1 i) :=
      fun e1 h1 => hmoves e1 (List.mem_cons_of_mem _ h1)
    unfold run at hwr
    rcases List.mem_append.mp hwr with hnow | hlater
    · cases ev with
      | move e1 => cases hnow
      | drag e1 =>
        simp only [handle] at hnow
        rw [mouseDrag_idle w.ed e1 hidle] at hnow
        cases hnow
      | down e1 => cases hnow
      | doubleClick e1 =>
        simp only [handle] at hnow
        obtain ⟨_, j, v, _, _, hw⟩ := mouseDoubleClick_writes w.ed w.proc e1 wr hnow
        rw [hw]
        rfl
    · cases ev with
      | move e1 =>
        have hmiss : ¬ (inFrame w.ed e1 ∧ ∃ i, isHit w.ed w.proc e1 i) := by
          rintro ⟨hin, i, hi⟩
          exact hmoves e1 (List.mem_cons_self _ _)
            ⟨(inFrame_congr ed0 w.ed e1 hf).mp hin, i,
              (isHit_congr ed0 w.ed p0 w.proc e1 i hf hn hb).mp hi⟩
        simp only [handle] at hlater
        rw [mouseMove_of_miss w.ed w.proc e1 hmiss] at hlater
        exact ih ⟨mouseMoveMiss w.ed, w.proc⟩ rfl hf hn hb hrest wr hlater
      | drag e1 => exact ih _ hidle hf hn hb hrest wr hlater
      | down e1 => exact ih _ hidle hf hn hb hrest wr hlater
      | doubleClick e1 =>
        simp only [handle] at hlater
        exact ih ⟨w.ed, (mouseDoubleClick w.ed w.proc e1).1⟩ hidle hf hn
          ((mouseDoubleClick_bands w.ed w.proc e1).trans hb) hrest wr hlater

/-! ## Claims on the domain mapper -/

/-- C1: frequency round trip.  For every frequency `f` in `[20, 20480]`,
`getPositionForFrequency f` is a finite position `x`, and `getFrequencyForPosition x` equals
`f` exactly over the reals, hence within a relative error of `1e-3`. -/
theorem C1_frequency_round_trip (f : ℝ) (hlo : 20 ≤ f) (_hhi : f ≤ 20480) :
    ∃ x, getPositionForFrequency f = some x ∧ x = Real.logb 2 (f / 20) / 10 ∧
      getFrequencyForPosition x = f ∧
      |getFrequencyForPosition x - f| ≤ 1 / 1000 * |f| := by
  have hf : 0 < f := by linarith
  refine ⟨_, getPositionForFrequency_of_pos hf, rfl, getFrequencyForPosition_log hf, ?_⟩
  rw [getFrequencyForPosition_log hf, sub_self, abs_zero]
  positivity

/-- Witness of C1 at 1000 Hz. -/
theorem C1_frequency_round_trip_witness :
    (20 : ℝ) ≤ 1000 ∧ (1000 : ℝ) ≤ 20480 ∧
      ∃ x, getPositionForFrequency 1000 = some x ∧ x = Real.logb 2 (1000 / 20) / 10 ∧
        getFrequencyForPosition x = 1000 ∧
        |getFrequencyForPosition x - 1000| ≤ 1 / 1000 * |(1000 : ℝ)| :=
  ⟨by norm_num, by norm_num, C1_frequency_round_trip 1000 (by norm_num) (by norm_num)⟩

/-- C3: frequency axis boundaries.  `getPositionForFrequency 20` is exactly `0` and
`getPositionForFrequency (20 * 2 ^ 10)`, that is `getPositionForFrequency 20480`, is exactly `1`. -/
theorem C3_frequency_axis_boundaries :
    getPositionForFrequency 20 = some 0 ∧
      getPositionForFrequency (20 * 2 ^ 10) = some 1 ∧
      getPositionForFrequency 20480 = some 1 := by
  have h0 := getPositionForFrequency_octave 0
  have h10 := getPositionForFrequency_octave 10
  norm_num at h0 h10
  refine ⟨h0, ?_, h10⟩
  norm_num
  exact h10

/-! ## Example data: evaluation -/

theorem exProcessor_getBand_zero :
    exProcessor.getBand 0 = some { frequency := 20 * 2 ^ 1, gain := 1, type := 0 } := rfl

theorem exProcessor_getBand_one :
    exProcessor.getBand 1 = some { frequency := 20 * 2 ^ 2, gain := 1, type := 0 } := rfl

theorem anchorX_exFrame_octave (k : ℕ) (g : ℝ) (t : ℤ) :
    anchorX exFrame { frequency := 20 * 2 ^ k, gain := g, type := t }
      = some (96 + (k : ℝ) / 10 * 40) := by
  unfold anchorX
  rw [getPositionForFrequency_octave]
  simp [exFrame]

theorem anchorY_exFrame_unit (f : ℝ) (t : ℤ) :
    anchorY exFrame { frequency := f, gain := 1, type := t } = some 50 := by
  unfold anchorY
  rw [getPositionForGain_eq]
  congr 1
  simp [gainToDecibels, exFrame, Rectangle.getBottom]
  norm_num

/-- The pointer positions used in the examples lie inside `exFrame`. -/
theorem inFrame_ex (ed : Editor) (hf : ed.plotFrame = exFrame) :
    inFrame ed (exEvent 102 50) ∧ inFrame ed (exEvent 103 50) ∧
      inFrame ed (exEvent 100 50) ∧ inFrame ed (exEvent 100 10) ∧
      inFrame ed (exEvent 110 50) := by
  simp only [inFrame, hf, exEvent, exFrame, Rectangle.contains, truncToInt]
  norm_num

theorem isHit_ex_zero (ed : Editor) (hf : ed.plotFrame = exFrame) (hn : ed.numBandEditors = 2)
    (x y : ℝ) (hx : |100 - x| < 4) : isHit ed exProcessor (exEvent x y) 0 := by
  refine ⟨by omega, _, exProcessor_getBand_zero, ?_⟩
  rw [hf, anchorX_exFrame_octave]
  simp only [near, exEvent, clickRadius]
  norm_num
  exact hx

theorem isHit_ex_one (ed : Editor) (hf : ed.plotFrame = exFrame) (hn : ed.numBandEditors = 2)
    (x y : ℝ) (hx : |104 - x| < 4) : isHit ed exProcessor (exEvent x y) 1 := by
  refine ⟨by omega, _, exProcessor_getBand_one, ?_⟩
  rw [hf, anchorX_exFrame_octave]
  simp only [near, exEvent, clickRadius]
  norm_num
  exact hx

theorem not_isHit_ex (ed : Editor) (hf : ed.plotFrame = exFrame) (hn : ed.numBandEditors = 2)
    (x y : ℝ) (h0 : 4 ≤ |100 - x|) (h1 : 4 ≤ |104 - x|) :
    ∀ i, ¬ isHit ed exProcessor (exEvent x y) i := by
  rintro i ⟨hlt, band, hgb, hnear⟩
  rw [hn] at hlt
  rw [hf] at hnear
  interval_cases i
  · rw [exProcessor_getBand_zero] at hgb
    cases hgb
    rw [anchorX_exFrame_octave] at hnear
    simp only [near, exEvent, clickRadius] at hnear
    norm_num at hnear
    exact absurd hnear (not_lt.mpr h0)
  · rw [exProcessor_getBand_one] at hgb
    cases hgb
    rw [anchorX_exFrame_octave] at hnear
    simp only [near, exEvent, clickRadius] at hnear
    norm_num at hnear
    exact absurd hnear (not_lt.mpr h1)

/-- In the example, a pointer inside the frame within tolerance of pixel-x 100 takes the hit
branch of band 0. -/
theorem mouseMove_ex_zero (ed : Editor) (hf : ed.plotFrame = exFrame)
    (hn : ed.numBandEditors = 2) (x y : ℝ) (hin : inFrame ed (exEvent x y))
    (hx : |100 - x| < 4) :
    mouseMove ed exProcessor (exEvent x y)
      = mouseMoveHit ed exProcessor (exEvent x y) 0
          { frequency := 20 * 2 ^ 1, gain := 1, type := 0 } := by
  have h0 := isHit_ex_zero ed hf hn x y hx
  obtain ⟨i, band, _, hgb, hmin, hmove⟩ := mouseMove_of_hit ed exProcessor _ hin ⟨0, h0⟩
  have hi0 : i = 0 := Nat.le_zero.mp (hmin 0 h0)
  subst hi0
  rw [exProcessor_getBand_zero] at hgb
  cases hgb
  exact hmove

/-- First match, not nearest match: with anchors at pixel-x 100 and 104, a pointer at x = 103
is nearer to band 1 and still resolves to band 0. -/
theorem mouseMove_ex_first_match_not_nearest :
    isHit (exEditor (-1) false) exProcessor (exEvent 103 50) 1 ∧
      (mouseMove (exEditor (-1) false) exProcessor (exEvent 103 50)).draggingBand = 0 := by
  refine ⟨isHit_ex_one _ rfl rfl _ _ (by rw [abs_lt]; constructor <;> norm_num), ?_⟩
  rw [mouseMove_ex_zero _ rfl rfl _ _ (inFrame_ex _ rfl).2.1
    (by rw [abs_lt]; constructor <;> norm_num), mouseMoveHit_draggingBand]
  rfl

/-! ## Claims on hit-testing -/

/-- C4: hit-test tie-break in `mouseMove`.  For every pointer position inside the plot frame and
every list of bands, if some band has its frequency anchor within the 4-pixel tolerance of
pointer-x, then `draggingBand` after `mouseMove` is the lowest-index such band. -/
theorem C4_hit_test_lowest_index (ed : Editor) (p : Processor) (e : MouseEvent)
    (hin : inFrame ed e) (hex : ∃ i, isHit ed p e i) :
    ∃ i, isHit ed p e i ∧ (∀ j, isHit ed p e j → i ≤ j) ∧
      (mouseMove ed p e).draggingBand = (i : ℤ) := by
  obtain ⟨i, band, hi, _, hmin, hmove⟩ := mouseMove_of_hit ed p e hin hex
  exact ⟨i, hi, hmin, by rw [hmove, mouseMoveHit_draggingBand]⟩

/-- Witness of C4: anchors at pixel-x 100 (band 0) and 104 (band 1); a pointer at x = 102 is
inside the frame, hits both bands and resolves to band 0. -/
theorem C4_hit_test_lowest_index_witness :
    inFrame (exEditor (-1) false) (exEvent 102 50) ∧
      isHit (exEditor (-1) false) exProcessor (exEvent 102 50) 0 ∧
      isHit (exEditor (-1) false) exProcessor (exEvent 102 50) 1 ∧
      (mouseMove (exEditor (-1) false) exProcessor (exEvent 102 50)).draggingBand = 0 := by
  have hin := (inFrame_ex (exEditor (-1) false) rfl).1
  have h0 : isHit (exEditor (-1) false) exProcessor (exEvent 102 50) 0 :=
    isHit_ex_zero _ rfl rfl _ _ (by rw [abs_lt]; constructor <;> norm_num)
  have h1 : isHit (exEditor (-1) false) exProcessor (exEvent 102 50) 1 :=
    isHit_ex_one _ rfl rfl _ _ (by rw [abs_lt]; constructor <;> norm_num)
  obtain ⟨i, _, hmin, hd⟩ := C4_hit_test_lowest_index _ exProcessor _ hin ⟨0, h0⟩
  have hi0 : i = 0 := Nat.le_zero.mp (hmin 0 h0)
  subst hi0
  exact ⟨hin, h0, h1, by simpa using hd⟩

/-- C5 fails on the code: the branch of `mouseMove` taken when pointer-y is outside the gain
tolerance sets the left-right cursor but does not clear `draggingGain`.  Starting idle, a move to
(100, 50) hits band 0 on its gain anchor (pixel-y 50) and engages gain; a following move to
(100, 10) hits band 0 with pointer-y 40 pixels from the gain anchor, and `draggingGain` is
still true while the cursor shows a frequency-only drag. -/
theorem C5_gain_engagement_stale :
    isHit (mouseMove (exEditor (-1) false) exProcessor (exEvent 100 50)) exProcessor
        (exEvent 100 10) 0 ∧
      ¬ near (anchorY exFrame { frequency := 20 * 2 ^ 1, gain := 1, type := 0 }) 10 ∧
      (mouseMove (mouseMove (exEditor (-1) false) exProcessor (exEvent 100 50)) exProcessor
        (exEvent 100 10)).draggingBand = 0 ∧
      (mouseMove (mouseMove (exEditor (-1) false) exProcessor (exEvent 100 50)) exProcessor
        (exEvent 100 10)).draggingGain = true ∧
      (mouseMove (mouseMove (exEditor (-1) false) exProcessor (exEvent 100 50)) exProcessor
        (exEvent 100 10)).cursor = Cursor.LeftRightResizeCursor := by
  have hx : |(100 : ℝ) - 100| < 4 := by norm_num
  have hy1 : near (anchorY exFrame { frequency := 20 * 2 ^ 1, gain := 1, type := 0 })
      (exEvent 100 50).y := by
    rw [anchorY_exFrame_unit]
    simp [near, exEvent, clickRadius]
  have hy2 : ¬ near (anchorY exFrame { frequency := 20 * 2 ^ 1, gain := 1, type := 0 })
      (exEvent 100 10).y := by
    rw [anchorY_exFrame_unit]
    simp only [near, exEvent, clickRadius]
    norm_num
  have e1 := mouseMove_ex_zero (exEditor (-1) false) rfl rfl 100 50
    (inFrame_ex _ rfl).2.2.1 hx
  have hf1 : (mouseMove (exEditor (-1) false) exProcessor (exEvent 100 50)).plotFrame
      = exFrame := by
    rw [e1]
    exact (mouseMoveHit_frame _ _ _ _ _).1
  have hn1 : (mouseMove (exEditor (-1) false) exProcessor (exEvent 100 50)).numBandEditors
      = 2 := by
    rw [e1]
    exact (mouseMoveHit_frame _ _ _ _ _).2
  have hg1 : (mouseMove (exEditor (-1) false) exProcessor (exEvent 100 50)).draggingGain
      = true := by
    rw [e1, mouseMoveHit_draggingGain]
    have hy1b : near (anchorY (exEditor (-1) false).plotFrame
        { frequency := 20 * 2 ^ 1, gain := 1, type := 0 }) (exEvent 100 50).y := hy1
    rw [if_pos hy1b]
    rfl
  have e2 := mouseMove_ex_zero _ hf1 hn1 100 10 (inFrame_ex _ hf1).2.2.2.1 hx
  refine ⟨isHit_ex_zero _ hf1 hn1 _ _ hx, hy2, ?_, ?_, ?_⟩
  · rw [e2, mouseMoveHit_draggingBand]
    rfl
  · rw [e2, mouseMoveHit_draggingGain, hf1, if_neg hy2, hg1]
  · rw [e2, mouseMoveHit_cursor, hf1, if_neg hy2]

/-! ## Claims on the interaction session -/

/-- C6: drag state is cleared on a miss.  For every interaction state, a `mouseMove` to a
position where no band has its frequency anchor within tolerance leaves `draggingBand = -1`
(distinct from band 0), `draggingGain = false` and the normal cursor; every `mouseDrag` in that
state writes nothing, and along every following sequence of events in which no `mouseMove` hits
a band, no frequency or gain parameter is written. -/
theorem C6_miss_clears_drag_state (ed : Editor) (p : Processor) (e : MouseEvent)
    (hmiss : ∀ i, ¬ isHit ed p e i) :
    (mouseMove ed p e).draggingBand = -1 ∧ (mouseMove ed p e).draggingBand ≠ 0 ∧
      (mouseMove ed p e).draggingGain = false ∧
      (mouseMove ed p e).cursor = Cursor.NormalCursor ∧
      (∀ e1, mouseDrag (mouseMove ed p e) e1 = []) ∧
      ∀ evs : List PointerEvent,
        (∀ e1, PointerEvent.move e1 ∈ evs → ¬ (inFrame ed e1 ∧ ∃ i, isHit ed p e1 i)) →
        ∀ wr ∈ run { ed := mouseMove ed p e, proc := p } evs, wr.isFrequencyOrGain = false := by
  have hm : mouseMove ed p e = mouseMoveMiss ed :=
    mouseMove_of_miss ed p e (fun h => h.2.elim (fun i hi => hmiss i hi))
  rw [hm]
  refine ⟨rfl, ?_, rfl, rfl, fun e1 => mouseDrag_idle _ e1 rfl, ?_⟩
  · show (-1 : ℤ) ≠ 0
    norm_num
  · intro evs hmoves
    exact run_idle ed p evs _ rfl rfl rfl rfl hmoves

/-- Witness of C6: band 1 with gain engaged, anchors at pixel-x 100 and 104, pointer moved to
x = 110; the session becomes idle and a following drag at x = 102 writes nothing. -/
theorem C6_miss_clears_drag_state_witness :
    (∀ i, ¬ isHit (exEditor 1 true) exProcessor (exEvent 110 50) i) ∧
      (mouseMove (exEditor 1 true) exProcessor (exEvent 110 50)).draggingBand = -1 ∧
      (mouseMove (exEditor 1 true) exProcessor (exEvent 110 50)).draggingGain = false ∧
      mouseDrag (mouseMove (exEditor 1 true) exProcessor (exEvent 110 50)) (exEvent 102 50)
        = [] := by
  have hmiss : ∀ i, ¬ isHit (exEditor 1 true) exProcessor (exEvent 110 50) i :=
    not_isHit_ex _ rfl rfl 110 50
      (by rw [abs_of_neg (by norm_num)]; norm_num)
      (by rw [abs_of_neg (by norm_num)]; norm_num)
  have h := C6_miss_clears_drag_state (exEditor 1 true) exProcessor (exEvent 110 50) hmiss
  exact ⟨hmiss, h.1, h.2.2.1, h.2.2.2.2.1 _⟩

/-- C7: double-click toggle value.  For a double-click inside the plot frame that hits band `i`
whose active parameter exists with value `v`, the handler writes that parameter with `1` when
`v < 0.5` and with `0` otherwise, writes no other value to it, and the parameter holds the
written value afterwards; every write of the handler has value `0` or `1`.  In particular 0.3
becomes 1, 0.7 becomes 0 and 0.5 becomes 0. -/
theorem C7_double_click_toggle (ed : Editor) (p : Processor) (e : MouseEvent) (i : ℕ) (v : ℝ)
    (hin : inFrame ed e) (hhit : isHit ed p e i) (hv : p.activeParam i = some v) :
    Write.active (i : ℤ) (if v < 1 / 2 then 1 else 0) ∈ (mouseDoubleClick ed p e).2 ∧
      (∀ u, Write.active (i : ℤ) u ∈ (mouseDoubleClick ed p e).2 →
        u = if v < 1 / 2 then 1 else 0) ∧
      (mouseDoubleClick ed p e).1.activeParam i = some (if v < 1 / 2 then 1 else 0) ∧
      (∀ w ∈ (mouseDoubleClick ed p e).2, ∃ j u, w = Write.active j u ∧ (u = 0 ∨ u = 1)) ∧
      toggleValue (3 / 10) = 1 ∧ toggleValue (7 / 10) = 0 ∧ toggleValue (1 / 2) = 0 := by
  have hloop := mouseDoubleClickLoop_hit ed e (List.range ed.numBandEditors)
    (List.nodup_range _) p [] i v (List.mem_range.mpr hhit.1) hhit.2 hv
  have hdef : mouseDoubleClick ed p e
      = mouseDoubleClickLoop ed e (List.range ed.numBandEditors) p [] := by
    unfold mouseDoubleClick
    rw [if_pos hin]
  refine ⟨?_, ?_, ?_, ?_, ?_, ?_, ?_⟩
  · rw [hdef]
    exact hloop.1
  · intro u hu
    obtain ⟨_, j, v1, _, hv1, hw⟩ := mouseDoubleClick_writes ed p e _ hu
    injection hw with hband hval
    have hji : i = j := by exact_mod_cast hband
    subst hji
    rw [hv] at hv1
    cases hv1
    exact hval
  · rw [hdef]
    exact hloop.2
  · intro w hw
    obtain ⟨_, j, v1, _, _, hw1⟩ := mouseDoubleClick_writes ed p e w hw
    refine ⟨(j : ℤ), toggleValue v1, hw1, ?_⟩
    rcases toggleValue_cases v1 with ⟨_, h1⟩ | ⟨_, h0⟩
    · exact Or.inr h1
    · exact Or.inl h0
  · unfold toggleValue
    norm_num
  · unfold toggleValue
    norm_num
  · unfold toggleValue
    norm_num

/-- Witness of C7: a double-click at x = 102 hits band 0, whose active parameter is 0.3, and
writes 1 to it. -/
theorem C7_double_click_toggle_witness :
    inFrame (exEditor (-1) false) (exEvent 102 50) ∧
      isHit (exEditor (-1) false) exProcessor (exEvent 102 50) 0 ∧
      exProcessor.activeParam 0 = some (3 / 10) ∧
      Write.active 0 1 ∈ (mouseDoubleClick (exEditor (-1) false) exProcessor (exEvent 102 50)).2 := by
  have hin := (inFrame_ex (exEditor (-1) false) rfl).1
  have h0 : isHit (exEditor (-1) false) exProcessor (exEvent 102 50) 0 :=
    isHit_ex_zero _ rfl rfl _ _ (by rw [abs_lt]; constructor <;> norm_num)
  have h := (C7_double_click_toggle (exEditor (-1) false) exProcessor (exEvent 102 50) 0
    (3 / 10) hin h0 rfl).1
  have e1 : (if (3 / 10 : ℝ) < 1 / 2 then (1 : ℝ) else 0) = 1 := by norm_num
  rw [e1] at h
  exact ⟨hin, h0, rfl, by simpa using h⟩

/-- C8 as stated fails: with two band editors at resolution time, the callback of a menu opened
for band 3, resolved with item 5 (filter type 4), does not return without effect; it accesses
`bandEditors` outside its bounds. -/
theorem C8_stale_menu_callback_counterexample :
    (exEditor (-1) false).numBandEditors = 2 ∧ (exEditor (-1) false).numBandEditors ≤ 3 ∧
      menuCallback (exEditor (-1) false) 3 5 = Except.error Fault.outOfBounds ∧
      menuCallback (exEditor (-1) false) 3 5 ≠ Except.ok [] := by
  refine ⟨rfl, by decide, rfl, ?_⟩
  intro h
  cases h

/-- C8 amended: the menu callback does not compare the captured index with the band count.
Resolved without a selection (`selected <= 0`) it writes nothing and raises no error, for every
captured index and band count; resolved with `selected > 0` for an index below the band count
it writes exactly the filter type `selected - 1` of that band. -/
theorem C8_menu_callback (ed : Editor) (i : ℕ) (selected : ℤ) :
    (selected ≤ 0 → menuCallback ed i selected = Except.ok []) ∧
      (0 < selected → i < ed.numBandEditors →
        menuCallback ed i selected = Except.ok [Write.type (i : ℤ) (selected - 1)]) := by
  refine ⟨fun h => ?_, fun h hi => ?_⟩
  · unfold menuCallback
    rw [if_neg (not_lt.mpr h)]
  · unfold menuCallback
    rw [if_pos h, if_pos hi]

/-- Witness of the amended C8: a dismissed menu for the stale index 3 with two band editors is
a no-op. -/
theorem C8_menu_callback_witness :
    (0 : ℤ) ≤ 0 ∧ menuCallback (exEditor (-1) false) 3 0 = Except.ok [] :=
  ⟨le_refl 0, (C8_menu_callback (exEditor (-1) false) 3 0).1 (le_refl 0)⟩

/-- C9 as stated fails for `mouseDrag`: with a plot frame of zero width and band 1 left as the
dragged band, `mouseDrag` divides by the zero width and writes the frequency of band 1; with a
plot frame of zero height and gain engaged it also writes the gain, computed through a division
by `top - bottom = 0`. -/
theorem C9_degenerate_frame_counterexample :
    exZeroWidth.plotFrame.w = 0 ∧
      fdiv ((exEvent 100 50).x - (exZeroWidth.plotFrame.x : ℝ)) (exZeroWidth.plotFrame.w : ℝ)
        = none ∧
      mouseDrag exZeroWidth (exEvent 100 50) = [Write.frequency 1 none] ∧
      exZeroHeight.plotFrame.h = 0 ∧
      Write.gain 1 none ∈ mouseDrag exZeroHeight (exEvent 100 50) := by
  have hpb : isPositiveAndBelow (1 : ℤ) 2 := by
    unfold isPositiveAndBelow
    norm_num
  refine ⟨rfl, ?_, ?_, rfl, ?_⟩
  · simp [fdiv, exZeroWidth]
  · simp [mouseDrag, exZeroWidth, hpb, fdiv]
  · simp [mouseDrag, exZeroHeight, hpb, getGainForPosition, jmap, fdiv, Rectangle.getBottom]

/-- C9 amended: for every plot frame of zero width or zero height, every interaction state and
every pointer event, the containment guard fails, so `mouseMove` ends idle, `mouseDown` opens no
menu and `mouseDoubleClick` writes nothing and changes no parameter; `mouseDrag` has no frame
guard and writes nothing when `draggingBand` is not a valid band index. -/
theorem C9_degenerate_frame (ed : Editor) (p : Processor) (e : MouseEvent)
    (hdeg : ed.plotFrame.w = 0 ∨ ed.plotFrame.h = 0) :
    ¬ inFrame ed e ∧ mouseMove ed p e = mouseMoveMiss ed ∧
      (mouseMove ed p e).draggingBand = -1 ∧ (mouseMove ed p e).draggingGain = false ∧
      mouseDown ed p e = [] ∧ mouseDoubleClick ed p e = (p, []) ∧
      (¬ isPositiveAndBelow ed.draggingBand (ed.numBandEditors : ℤ) → mouseDrag ed e = []) := by
  have hout : ¬ inFrame ed e := by
    unfold inFrame Rectangle.contains
    rintro ⟨h1, h2, h3, h4⟩
    rcases hdeg with h | h
    · rw [h] at h3
      omega
    · rw [h] at h4
      omega
  have hm : mouseMove ed p e = mouseMoveMiss ed := mouseMove_of_miss ed p e (fun h => hout h.1)
  refine ⟨hout, hm, by rw [hm]; rfl, by rw [hm]; rfl, ?_, ?_, fun h => ?_⟩
  · unfold mouseDown
    rw [if_neg (fun h => hout h.2)]
  · unfold mouseDoubleClick
    rw [if_neg hout]
  · unfold mouseDrag
    rw [if_neg h]

/-- Witness of the amended C9 on the zero-width frame: a move ends idle and a double-click
writes nothing. -/
theorem C9_degenerate_frame_witness :
    (exZeroWidth.plotFrame.w = 0 ∨ exZeroWidth.plotFrame.h = 0) ∧
      (mouseMove exZeroWidth exProcessor (exEvent 100 50)).draggingBand = -1 ∧
      mouseDoubleClick exZeroWidth exProcessor (exEvent 100 50) = (exProcessor, []) :=
  ⟨Or.inl rfl,
    (C9_degenerate_frame exZeroWidth exProcessor (exEvent 100 50) (Or.inl rfl)).2.2.1,
    (C9_degenerate_frame exZeroWidth exProcessor (exEvent 100 50) (Or.inl rfl)).2.2.2.2.2.1⟩

/-- C10: drag write-back.  For every `mouseDrag` while `draggingBand` is a valid band index and
the plot frame has non-zero width, the handler writes the frequency of band `draggingBand` with
`getFrequencyForPosition ((pointer-x - frame.x) / frame.width)`, followed by the gain of that
band with `getGainForPosition (pointer-y, frame.top, frame.bottom)` exactly when gain is
engaged, and nothing else; so a gain write exists iff gain is engaged and every write addresses
band `draggingBand`. -/
theorem C10_drag_write_back (ed : Editor) (e : MouseEvent)
    (h0 : 0 ≤ ed.draggingBand) (hlt : ed.draggingBand < (ed.numBandEditors : ℤ))
    (hw : ed.plotFrame.w ≠ 0) :
    mouseDrag ed e
        = Write.frequency ed.draggingBand
            (some (getFrequencyForPosition
              ((e.x - (ed.plotFrame.x : ℝ)) / (ed.plotFrame.w : ℝ)))) ::
          (if ed.draggingGain = true then
            [Write.gain ed.draggingBand
              (getGainForPosition e.y (ed.plotFrame.y : ℝ) (ed.plotFrame.getBottom : ℝ))]
          else []) ∧
      ((∃ v, Write.gain ed.draggingBand v ∈ mouseDrag ed e) ↔ ed.draggingGain = true) ∧
      (∀ w ∈ mouseDrag ed e, w.band = ed.draggingBand) := by
  have hwr : (ed.plotFrame.w : ℝ) ≠ 0 := by exact_mod_cast hw
  have hpb : isPositiveAndBelow ed.draggingBand (ed.numBandEditors : ℤ) := ⟨h0, hlt⟩
  have hdef : mouseDrag ed e
      = Write.frequency ed.draggingBand
            (some (getFrequencyForPosition
              ((e.x - (ed.plotFrame.x : ℝ)) / (ed.plotFrame.w : ℝ)))) ::
          (if ed.draggingGain = true then
            [Write.gain ed.draggingBand
              (getGainForPosition e.y (ed.plotFrame.y : ℝ) (ed.plotFrame.getBottom : ℝ))]
          else []) := by
    unfold mouseDrag
    rw [if_pos hpb]
    simp [fdiv, hwr]
  rw [hdef]
  refine ⟨rfl, ?_, ?_⟩
  · cases hg : ed.draggingGain <;> simp
  · intro w hmem
    cases hg : ed.draggingGain <;> simp [hg] at hmem
    · rw [hmem]
      rfl
    · rcases hmem with hmem | hmem <;> rw [hmem] <;> rfl

/-- Witness of C10: dragging band 1 with gain engaged at (102, 50) in the example frame writes
the frequency and the gain of band 1. -/
theorem C10_drag_write_back_witness :
    (0 : ℤ) ≤ (exEditor 1 true).draggingBand ∧
      (exEditor 1 true).draggingBand < ((exEditor 1 true).numBandEditors : ℤ) ∧
      (exEditor 1 true).plotFrame.w ≠ 0 ∧
      ∀ w ∈ mouseDrag (exEditor 1 true) (exEvent 102 50), w.band = 1 :=
  ⟨by decide, by decide, by decide,
    (C10_drag_write_back (exEditor 1 true) (exEvent 102 50) (by decide) (by decide)
      (by decide)).2.2⟩

/-- C11 fails on the code: the loop of `mouseDoubleClick` has no `break` or `return` after a
hit, unlike the loop of `mouseMove`.  With anchors at pixel-x 100 (band 0) and 104 (band 1), a
pointer at (102, 50) is inside the frame and within tolerance of both; the hit-test of
`mouseMove` resolves to band 0, yet the double-click writes the active parameter of band 0
(0.3 becomes 1) and also that of band 1, which changes from 0.7 to 0. -/
theorem C11_double_click_toggles_every_hit :
    inFrame (exEditor (-1) false) (exEvent 102 50) ∧
      isHit (exEditor (-1) false) exProcessor (exEvent 102 50) 0 ∧
      isHit (exEditor (-1) false) exProcessor (exEvent 102 50) 1 ∧
      (mouseMove (exEditor (-1) false) exProcessor (exEvent 102 50)).draggingBand = 0 ∧
      Write.active 0 1 ∈
        (mouseDoubleClick (exEditor (-1) false) exProcessor (exEvent 102 50)).2 ∧
      Write.active 1 0 ∈
        (mouseDoubleClick (exEditor (-1) false) exProcessor (exEvent 102 50)).2 ∧
      exProcessor.activeParam 1 = some (7 / 10) ∧
      (mouseDoubleClick (exEditor (-1) false) exProcessor (exEvent 102 50)).1.activeParam 1
        = some 0 := by
  have hin := (inFrame_ex (exEditor (-1) false) rfl).1
  have hx0 : |(100 : ℝ) - 102| < 4 := by rw [abs_lt]; constructor <;> norm_num
  have hx1 : |(104 : ℝ) - 102| < 4 := by rw [abs_lt]; constructor <;> norm_num
  have h0 : isHit (exEditor (-1) false) exProcessor (exEvent 102 50) 0 :=
    isHit_ex_zero _ rfl rfl _ _ hx0
  have h1 : isHit (exEditor (-1) false) exProcessor (exEvent 102 50) 1 :=
    isHit_ex_one _ rfl rfl _ _ hx1
  have hdef : mouseDoubleClick (exEditor (-1) false) exProcessor (exEvent 102 50)
      = mouseDoubleClickLoop (exEditor (-1) false) (exEvent 102 50)
          (List.range (exEditor (-1) false).numBandEditors) exProcessor [] := by
    unfold mouseDoubleClick
    rw [if_pos hin]
  have hv0 : exProcessor.activeParam 0 = some (3 / 10) := rfl
  have hv1 : exProcessor.activeParam 1 = some (7 / 10) := rfl
  have ht0 : toggleValue (3 / 10) = 1 := by
    unfold toggleValue
    norm_num
  have ht1 : toggleValue (7 / 10) = 0 := by
    unfold toggleValue
    norm_num
  have hl0 := mouseDoubleClickLoop_hit (exEditor (-1) false) (exEvent 102 50)
    (List.range (exEditor (-1) false).numBandEditors) (List.nodup_range _) exProcessor [] 0
    (3 / 10) (List.mem_range.mpr h0.1) h0.2 hv0
  have hl1 := mouseDoubleClickLoop_hit (exEditor (-1) false) (exEvent 102 50)
    (List.range (exEditor (-1) false).numBandEditors) (List.nodup_range _) exProcessor [] 1
    (7 / 10) (List.mem_range.mpr h1.1) h1.2 hv1
  rw [ht0] at hl0
  rw [ht1] at hl1
  refine ⟨hin, h0, h1, ?_, ?_, ?_, hv1, ?_⟩
  · rw [mouseMove_ex_zero _ rfl rfl _ _ hin hx0, mouseMoveHit_draggingBand]
    rfl
  · rw [hdef]
    simpa using hl0.1
  · rw [hdef]
    simpa using hl1.1
  · rw [hdef]
    exact hl1.2

end Frequalizer
